import Mathlib

/-!
Shallow embedding of `helpers/limitless_client.py` (`PolymarketClient`):
the market relevance filter and timeframe categorization of
`fetch_crypto_markets`, its retry loop around the market-listing request,
and the full signal aggregation of `analyze_markets`.

Numeric values are embedded as exact rationals (`ℚ`); Python's binary
doubles are not modelled, so all arithmetic statements below are about
the exact-arithmetic semantics of the source expressions.
-/

namespace Polymarket

/-! ### Substring search (Python's `in` operator on strings) -/

/-- Does the list start with the pattern `p`? -/
def pfxMatch : List Char → List Char → Bool
  | [], _ => true
  | _ :: _, [] => false
  | a :: as, b :: bs => a == b && pfxMatch as bs

/-- Does the pattern `p` occur contiguously inside the haystack? -/
def occursIn (p : List Char) : List Char → Bool
  | [] => p.isEmpty
  | c :: cs => pfxMatch p (c :: cs) || occursIn p cs

/-- Python's `pat in hay` for strings: contiguous substring test. -/
def strHas (hay pat : String) : Bool := occursIn pat.toList hay.toList

/-- Python's `str.upper()`: character-wise uppercasing (the questions and
keywords are ASCII, where this is exact). -/
def pyUpper (s : String) : String := String.mk (s.data.map Char.toUpper)

/-- Python's `str.split(",")`: split on every comma, keeping empty parts. -/
def splitCommaAux : List Char → List Char → List String
  | [], acc => [String.mk acc.reverse]
  | c :: cs, acc =>
    if c == ',' then String.mk acc.reverse :: splitCommaAux cs []
    else splitCommaAux cs (c :: acc)

/-- Python's `s.split(",")`. -/
def splitComma (s : String) : List String := splitCommaAux s.data []

theorem pfxMatch_iff (p : List Char) : ∀ h : List Char,
    pfxMatch p h = true ↔ ∃ t, h = p ++ t := by
  induction p with
  | nil => intro h; simp [pfxMatch]
  | cons a as ih =>
    intro h
    cases h with
    | nil => simp [pfxMatch]
    | cons b bs =>
      simp only [pfxMatch, Bool.and_eq_true, beq_iff_eq, ih bs]
      constructor
      · rintro ⟨rfl, t, rfl⟩; exact ⟨t, rfl⟩
      · rintro ⟨t, ht⟩
        injection ht with h1 h2
        exact ⟨h1.symm, t, h2⟩

theorem occursIn_iff (p : List Char) : ∀ h : List Char,
    occursIn p h = true ↔ ∃ l r, h = l ++ (p ++ r) := by
  intro h
  induction h with
  | nil =>
    simp only [occursIn, List.isEmpty_iff]
    constructor
    · rintro rfl; exact ⟨[], [], rfl⟩
    · rintro ⟨l, r, hl⟩
      rcases List.append_eq_nil.mp hl.symm with ⟨rfl, h2⟩
      rcases List.append_eq_nil.mp h2 with ⟨rfl, rfl⟩
      rfl
  | cons c cs ih =>
    simp only [occursIn, Bool.or_eq_true, pfxMatch_iff, ih]
    constructor
    · rintro (⟨t, ht⟩ | ⟨l, r, hl⟩)
      · exact ⟨[], t, ht⟩
      · exact ⟨c :: l, r, by simp [hl]⟩
    · rintro ⟨l, r, hl⟩
      cases l with
      | nil => exact Or.inl ⟨r, by simpa using hl⟩
      | cons x xs =>
        injection hl with h1 h2
        exact Or.inr ⟨xs, r, h2⟩

/-- Substring containment is transitive: if `a` occurs in `s` and `b`
occurs in `a`, then `b` occurs in `s`. -/
theorem strHas_trans {s a b : String} (h1 : strHas s a = true)
    (h2 : strHas a b = true) : strHas s b = true := by
  rw [strHas, occursIn_iff] at h1 h2 ⊢
  rcases h1 with ⟨l, r, hl⟩
  rcases h2 with ⟨l2, r2, hl2⟩
  exact ⟨l ++ l2, r2 ++ r, by rw [hl, hl2]; simp⟩

/-! ### Decimal parsing (Python's `float(p)` on the price strings)

Python's `float()` strips surrounding whitespace and accepts an optional
sign, a decimal mantissa (digits, optionally with one point), and an
optional exponent part.  The special forms `inf`/`nan` and digit-group
underscores are not modelled; no claim depends on them. -/

/-- Homomorphic value of a digit string. -/
def digitsToNat (ds : List Char) : ℕ :=
  ds.foldl (fun n c => 10 * n + (c.toNat - 48)) 0

/-- Strip leading and trailing whitespace, as `float()` does. -/
def pyTrim (cs : List Char) : List Char :=
  ((cs.dropWhile Char.isWhitespace).reverse.dropWhile Char.isWhitespace).reverse

/-- Integer power of ten over `ℚ`. -/
def pow10 (e : ℤ) : ℚ :=
  if 0 ≤ e then ((10 ^ e.toNat : ℕ) : ℚ) else 1 / ((10 ^ (-e).toNat : ℕ) : ℚ)

/-- Consume an optional leading sign; `true` means negative. -/
def parseSign : List Char → Bool × List Char
  | '+' :: cs => (false, cs)
  | '-' :: cs => (true, cs)
  | cs => (false, cs)

/-- Parse the optional exponent suffix; the whole rest must be consumed. -/
def parseExp : List Char → Option ℤ
  | [] => some 0
  | c :: rest =>
    if c == 'e' || c == 'E' then
      let sn := parseSign rest
      let ed := sn.2.span Char.isDigit
      if ed.1.isEmpty || !ed.2.isEmpty then none
      else some (if sn.1 then -(digitsToNat ed.1 : ℤ) else (digitsToNat ed.1 : ℤ))
    else none

/-- The discrete scan of `float(s)`: sign, integer digits, fraction
digits, exponent.  `none` is a `ValueError`. -/
def parseFloatRaw (s : String) : Option (Bool × List Char × List Char × ℤ) :=
  let cs0 := pyTrim s.data
  let sn := parseSign cs0
  let ipr := sn.2.span Char.isDigit
  let fpr : List Char × List Char :=
    match ipr.2 with
    | '.' :: rest => rest.span Char.isDigit
    | _ => ([], ipr.2)
  if ipr.1.isEmpty && fpr.1.isEmpty then none
  else
    match parseExp fpr.2 with
    | none => none
    | some e => some (sn.1, ipr.1, fpr.1, e)

/-- The numeric value of a scanned decimal literal. -/
def ratOfParts (neg : Bool) (ip fp : List Char) (e : ℤ) : ℚ :=
  let mant : ℚ := (digitsToNat ip : ℚ)
    + (digitsToNat fp : ℚ) / ((10 ^ fp.length : ℕ) : ℚ)
  let v : ℚ := mant * pow10 e
  if neg then -v else v

/-- Python `float(s)` on a decimal string, as an exact rational. -/
def parseFloat (s : String) : Option ℚ :=
  (parseFloatRaw s).map (fun r => ratOfParts r.1 r.2.1 r.2.2.1 r.2.2.2)

/-- The list comprehension `[float(p) for p in parts]`: parse every part
left to right, aborting at the first failure. -/
def parseAll : List String → Option (List ℚ)
  | [] => some []
  | p :: ps =>
    match parseFloat p with
    | none => none
    | some q =>
      match parseAll ps with
      | none => none
      | some qs => some (q :: qs)

/-! ### Data model -/

/-- One raw market record from the catalog.  Each field is `Option`al:
`none` models the key being absent from the JSON dict (the source reads
every field through `market.get(key, default)`); for `outcomePrices`,
`none` also covers a non-string value, which the source's
`isinstance(outcome_prices, str)` guard sends to the same default. -/
structure RawMarket where
  question : Option String
  active : Option Bool
  closed : Option Bool
  outcomePrices : Option String
  volume : Option String
  endDate : Option String
deriving DecidableEq

/-- Per-market derived view appended to `analyzed` (lines 153-159). -/
structure MarketInfo where
  question : String
  yes_probability : ℚ
  no_probability : ℚ
  volume : String
  end_date : String
deriving DecidableEq

inductive Direction
  | buy
  | sell
  | neutral
deriving DecidableEq

inductive SignalStrength
  | none
  | weak
  | moderate
  | strong
deriving DecidableEq

/-- Result record of `analyze_markets` (lines 205-214). -/
structure Recommendation where
  direction : Direction
  confidence : ℚ
  signal_strength : SignalStrength
  markets_analyzed : ℕ
  bullish_probability : ℚ
  bearish_probability : ℚ
  summary : String
  markets : List MarketInfo
deriving DecidableEq

/-! ### Outcome-price parsing (lines 136-146)

```
outcome_prices = market.get("outcomePrices", "")
try:
    if outcome_prices and isinstance(outcome_prices, str):
        prices = [float(p) for p in outcome_prices.split(",")]
        yes_price = prices[0] if len(prices) > 0 else 0.5
    else:
        yes_price = 0.5
except:
    yes_price = 0.5
```

The list comprehension parses every comma-separated element and raises at
the first failure, in which case the bare `except:` yields the 0.5
default; `parseAll` has exactly that all-or-nothing semantics. -/

def yesPrice (op : Option String) : ℚ :=
  match op with
  | none => 1 / 2
  | some s =>
    if s.data.isEmpty then 1 / 2
    else
      match parseAll (splitComma s) with
      | none => 1 / 2
      | some ps => ps.headD (1 / 2)

/-! ### Question classification (lines 149-151) -/

/-- Bullish-phrased question test on the uppercased question text. -/
def isBullishQ (qU : String) : Bool :=
  ["ABOVE", "HIGHER", "REACH", "EXCEED"].any (fun kw => strHas qU kw)

/-- Bearish-phrased question test on the uppercased question text. -/
def isBearishQ (qU : String) : Bool :=
  ["BELOW", "LOWER", "FALL", "DROP"].any (fun kw => strHas qU kw)

/-- The per-market `market_info` dict (lines 153-159). -/
def marketInfoOf (m : RawMarket) : MarketInfo :=
  { question := m.question.getD ""
    yes_probability := yesPrice m.outcomePrices
    no_probability := 1 - yesPrice m.outcomePrices
    volume := m.volume.getD "0"
    end_date := m.endDate.getD "" }

/-- The accumulation loop of `analyze_markets` (lines 133-170): returns
`(bullish_signals, bearish_signals, analyzed)` in source order. -/
def signals : List RawMarket → List ℚ × List ℚ × List MarketInfo
  | [] => ([], [], [])
  | m :: rest =>
    let prev := signals rest
    let y := yesPrice m.outcomePrices
    let info := marketInfoOf m
    let qU := pyUpper (m.question.getD "")
    if isBullishQ qU then (y :: prev.1, (1 - y) :: prev.2.1, info :: prev.2.2)
    else if isBearishQ qU then ((1 - y) :: prev.1, y :: prev.2.1, info :: prev.2.2)
    else (prev.1, prev.2.1, info :: prev.2.2)

/-- Line 173: `sum(bullish_signals)/len(bullish_signals) if bullish_signals else 0.5`. -/
def avgBullish (ms : List RawMarket) : ℚ :=
  let bs := (signals ms).1
  if bs.isEmpty then 1 / 2 else bs.sum / (bs.length : ℚ)

/-- Line 174: the bearish average, independently defaulted. -/
def avgBearish (ms : List RawMarket) : ℚ :=
  let rs := (signals ms).2.1
  if rs.isEmpty then 1 / 2 else rs.sum / (rs.length : ℚ)

/-- Lines 179-187: direction and (unrounded) confidence. -/
def dirConf (ms : List RawMarket) : Direction × ℚ :=
  if avgBullish ms > avgBearish ms then (Direction.buy, avgBullish ms)
  else if avgBearish ms > avgBullish ms then (Direction.sell, avgBearish ms)
  else (Direction.neutral, 1 / 2)

/-- Line 177: `diff = abs(avg_bullish - avg_bearish)`. -/
def diffOf (ms : List RawMarket) : ℚ := |avgBullish ms - avgBearish ms|

/-- Lines 190-195: qualitative strength from diff and confidence. -/
def strengthOf (diff conf : ℚ) : SignalStrength :=
  if diff > 0.3 ∧ conf > 0.7 then SignalStrength.strong
  else if diff > 0.15 ∧ conf > 0.6 then SignalStrength.moderate
  else SignalStrength.weak

/-! ### Output formatting (lines 197-214)

Python's `round(x, 3)` and the `:.1%` format both round half-to-even;
over the exact rationals that is `halfEven` below. -/

/-- Round a rational to the nearest integer, ties to the even one. -/
def halfEven (q : ℚ) : ℤ :=
  let f : ℤ := q.floor
  let r : ℚ := q - (f : ℚ)
  if r < 1 / 2 then f
  else if 1 / 2 < r then f + 1
  else if f % 2 = 0 then f else f + 1

/-- Python `round(x, 3)`. -/
def round3 (q : ℚ) : ℚ := (halfEven (q * 1000) : ℚ) / 1000

/-- Python `f"{x:.1%}"`: percentage with one decimal digit. -/
def fmtPct (q : ℚ) : String :=
  let n : ℤ := halfEven (q * 1000)
  let sign := if n < 0 then "-" else ""
  sign ++ toString (n.natAbs / 10) ++ "." ++ toString (n.natAbs % 10) ++ "%"

/-- Line 198: the direction-to-Chinese map (every key is present). -/
def directionCn : Direction → String
  | Direction.buy => "做多"
  | Direction.sell => "做空"
  | Direction.neutral => "中性"

/-- Line 199: the strength-to-Chinese map (every key is present). -/
def strengthCn : SignalStrength → String
  | SignalStrength.strong => "强"
  | SignalStrength.moderate => "中等"
  | SignalStrength.weak => "弱"
  | SignalStrength.none => "无"

/-- `PolymarketClient.analyze_markets` (lines 97-214). -/
def analyze (markets : List RawMarket) (symbol : String) : Recommendation :=
  if markets.isEmpty then
    { direction := Direction.neutral
      confidence := 0
      signal_strength := SignalStrength.none
      markets_analyzed := 0
      bullish_probability := 1 / 2
      bearish_probability := 1 / 2
      summary := "未找到 " ++ symbol ++ " 的活跃预测市场"
      markets := [] }
  else
    let avgB := avgBullish markets
    let avgR := avgBearish markets
    let dc := dirConf markets
    let strength := strengthOf (diffOf markets) dc.2
    { direction := dc.1
      confidence := round3 dc.2
      signal_strength := strength
      markets_analyzed := markets.length
      bullish_probability := round3 avgB
      bearish_probability := round3 avgR
      summary := "分析了 " ++ toString markets.length ++ " 个 " ++ symbol
        ++ " 预测市场。看涨概率: " ++ fmtPct avgB ++ "，看跌概率: " ++ fmtPct avgR
        ++ "。建议: " ++ directionCn dc.1 ++ " (" ++ strengthCn strength ++ "信号)"
      markets := (signals markets).2.2 }

/-! ### Market fetcher: filter and timeframe categorization (lines 57-94) -/

/-- The five timeframe buckets; `fourhour` is the source's `"4hour"` key
(idents cannot start with a digit). -/
inductive TF
  | hourly
  | fourhour
  | daily
  | weekly
  | other
deriving DecidableEq

/-- The relevance filter of lines 71-80: active, not closed, question
contains the uppercased symbol, and contains a price-movement keyword. -/
def relevantMarket (symU : String) (m : RawMarket) : Bool :=
  let qU := pyUpper (m.question.getD "")
  ((m.active.getD false) && !(m.closed.getD true) && strHas qU symU)
    && (["PRICE", "ABOVE", "BELOW", "REACH", "HIGHER", "LOWER", "CLOSE"].any
          (fun kw => strHas qU kw))

/-- The if/elif timeframe chain of lines 83-92, first match wins. -/
def timeframeOf (qU : String) : TF :=
  if ["HOUR", "HOURLY", "1H", "1 HOUR"].any (fun kw => strHas qU kw) then TF.hourly
  else if ["4 HOUR", "4H", "4-HOUR"].any (fun kw => strHas qU kw) then TF.fourhour
  else if ["DAY", "DAILY", "24H", "24 HOUR", "TODAY", "TOMORROW"].any
      (fun kw => strHas qU kw) then TF.daily
  else if ["WEEK", "WEEKLY", "7 DAY"].any (fun kw => strHas qU kw) then TF.weekly
  else TF.other

/-- The `categorized` dict (lines 59-65): all five keys always present. -/
structure CategorizedMarkets where
  hourly : List RawMarket
  fourhour : List RawMarket
  daily : List RawMarket
  weekly : List RawMarket
  other : List RawMarket
deriving DecidableEq

/-- Append a market to the bucket selected by the timeframe chain. -/
def addToBucket (c : CategorizedMarkets) : TF → RawMarket → CategorizedMarkets
  | TF.hourly, m => { c with hourly := m :: c.hourly }
  | TF.fourhour, m => { c with fourhour := m :: c.fourhour }
  | TF.daily, m => { c with daily := m :: c.daily }
  | TF.weekly, m => { c with weekly := m :: c.weekly }
  | TF.other, m => { c with other := m :: c.other }

/-- Read one bucket of the dict. -/
def bucketGet (c : CategorizedMarkets) : TF → List RawMarket
  | TF.hourly => c.hourly
  | TF.fourhour => c.fourhour
  | TF.daily => c.daily
  | TF.weekly => c.weekly
  | TF.other => c.other

/-- The filter-and-categorize loop of lines 67-92.  A `none` entry models
a catalog element that is not a dict (line 68's `continue`).  Recursing
on the tail after the head keeps each bucket in source order, matching
the forward `append` iteration of the source. -/
def categorizeMarkets (symbol : String) : List (Option RawMarket) → CategorizedMarkets
  | [] => { hourly := [], fourhour := [], daily := [], weekly := [], other := [] }
  | none :: rest => categorizeMarkets symbol rest
  | some m :: rest =>
    let c := categorizeMarkets symbol rest
    if relevantMarket (pyUpper symbol) m then
      addToBucket c (timeframeOf (pyUpper (m.question.getD ""))) m
    else c

/-- Specification-side selector: the catalog entries that are relevant and
categorize into bucket `tf`, keeping source order via `filterMap`. -/
def pickTF (symU : String) (tf : TF) (e : Option RawMarket) : Option RawMarket :=
  match e with
  | none => none
  | some m =>
    if relevantMarket symU m = true ∧ timeframeOf (pyUpper (m.question.getD "")) = tf
    then some m else none

/-! ### Retry loop around the market-listing request (lines 46-55)

```
max_retries = 3
for attempt in range(max_retries):
    try:
        markets = await self._get("/markets")
        break
    except asyncio.TimeoutError:
        if attempt == max_retries - 1:
            raise
        await asyncio.sleep(2)
```

The network call is modelled by an oracle giving each attempt's outcome;
the embedding returns the result, the list of `sleep` durations issued,
and the number of attempts made.  Only `asyncio.TimeoutError` is caught:
any other exception escapes the `try` immediately. -/

/-- Outcome of one `self._get("/markets")` attempt. -/
inductive AttemptOutcome (α : Type) (ε : Type)
  | ok (v : α)
  | timeoutError
  | otherError (e : ε)

/-- Result of the whole fetch after the retry loop. -/
inductive FetchResult (α : Type) (ε : Type)
  | ok (v : α)
  | timeoutRaised
  | raised (e : ε)
deriving DecidableEq

/-- The retry loop with `fuel` attempts remaining, the next attempt having
index `i`; `fuel = 0` is unreachable from the entry point `retryGo o 3 0`
because the last attempt re-raises instead of recursing. -/
def retryGo {α ε : Type} (oracle : ℕ → AttemptOutcome α ε) :
    ℕ → ℕ → FetchResult α ε × List ℕ × ℕ
  | 0, _ => (FetchResult.timeoutRaised, [], 0)
  | fuel + 1, i =>
    match oracle i with
    | AttemptOutcome.ok v => (FetchResult.ok v, [], 1)
    | AttemptOutcome.otherError e => (FetchResult.raised e, [], 1)
    | AttemptOutcome.timeoutError =>
      if fuel = 0 then (FetchResult.timeoutRaised, [], 1)
      else
        let r := retryGo oracle fuel (i + 1)
        (r.1, 2 :: r.2.1, r.2.2 + 1)

/-- The fetch with `max_retries = 3`. -/
def fetchMarketsWithRetry {α ε : Type} (oracle : ℕ → AttemptOutcome α ε) :
    FetchResult α ε × List ℕ × ℕ :=
  retryGo oracle 3 0

/-- `PolymarketClient.fetch_crypto_markets` (lines 35-94): retried fetch of
the catalog followed by filtering and categorization. -/
def fetchCryptoMarkets {ε : Type} (oracle : ℕ → AttemptOutcome (List (Option RawMarket)) ε)
    (symbol : String) : FetchResult CategorizedMarkets ε × List ℕ × ℕ :=
  match fetchMarketsWithRetry oracle with
  | (FetchResult.ok ms, sl, n) => (FetchResult.ok (categorizeMarkets symbol ms), sl, n)
  | (FetchResult.timeoutRaised, sl, n) => (FetchResult.timeoutRaised, sl, n)
  | (FetchResult.raised e, sl, n) => (FetchResult.raised e, sl, n)

/-! ### Helper lemmas about the aggregation loop -/

/-- The two accumulators always have the same length: every classified
market pushes one sample onto each. -/
theorem signals_lengths (ms : List RawMarket) :
    (signals ms).1.length = (signals ms).2.1.length := by
  induction ms with
  | nil => rfl
  | cons m rest ih =>
    simp only [signals]
    split_ifs <;> simp [ih]

/-- The two accumulators have complementary sums: every classified market
contributes `y` to one and `1 - y` to the other. -/
theorem signals_sum (ms : List RawMarket) :
    (signals ms).1.sum + (signals ms).2.1.sum = ((signals ms).1.length : ℚ) := by
  induction ms with
  | nil => simp [signals]
  | cons m rest ih =>
    simp only [signals]
    split_ifs <;> simp only [List.sum_cons, List.length_cons] <;> push_cast <;> linarith

/-- The unrounded averages always sum to exactly 1. -/
theorem avg_sum_one (ms : List RawMarket) : avgBullish ms + avgBearish ms = 1 := by
  unfold avgBullish avgBearish
  have hlen := signals_lengths ms
  by_cases h : (signals ms).1.isEmpty
  · have h2 : (signals ms).2.1.isEmpty := by
      rw [List.isEmpty_iff_length_eq_zero] at h ⊢
      omega
    simp [h, h2]
    norm_num
  · have h2 : ¬ (signals ms).2.1.isEmpty := by
      rw [List.isEmpty_iff_length_eq_zero] at h ⊢
      omega
    simp only [h, h2, if_neg, Bool.false_eq_true, ite_false]
    have hpos : 0 < (signals ms).1.length := by
      rw [List.isEmpty_iff_length_eq_zero] at h
      omega
    have hn : ((signals ms).1.length : ℚ) ≠ 0 := by
      exact_mod_cast Nat.pos_iff_ne_zero.mp hpos
    rw [← hlen, div_add_div_same, signals_sum ms, div_self hn]

/-! ### Helper lemmas about the categorizer -/

theorem bucketGet_add (c : CategorizedMarkets) (tf0 tf : TF) (m : RawMarket) :
    bucketGet (addToBucket c tf0 m) tf =
      if tf0 = tf then m :: bucketGet c tf else bucketGet c tf := by
  cases tf0 <;> cases tf <;> simp [addToBucket, bucketGet]

/-- Each bucket of the categorizer's output is exactly the order-preserving
selection of the relevant catalog entries whose timeframe is that bucket. -/
theorem categorize_bucket_eq (sym : String) (ms : List (Option RawMarket)) (tf : TF) :
    bucketGet (categorizeMarkets sym ms) tf = ms.filterMap (pickTF (pyUpper sym) tf) := by
  induction ms with
  | nil => cases tf <;> rfl
  | cons e rest ih =>
    cases e with
    | none => simpa [categorizeMarkets, pickTF] using ih
    | some m =>
      by_cases hrel : relevantMarket (pyUpper sym) m = true
      · by_cases htf : timeframeOf (pyUpper (m.question.getD "")) = tf
        · simp [categorizeMarkets, hrel, bucketGet_add, htf, pickTF, ih]
        · simp [categorizeMarkets, hrel, bucketGet_add, htf, pickTF, ih]
      · simp [categorizeMarkets, hrel, pickTF, ih]

/-- If the question contains `HOUR`, the first rule of the chain fires. -/
theorem timeframeOf_hour {qU : String} (h : strHas qU "HOUR" = true) :
    timeframeOf qU = TF.hourly := by
  simp [timeframeOf, h]

/-- Landing in the `4hour` bucket forces: none of the hourly keywords
occur, and `4H` occurs (the other two 4-hour keywords contain `HOUR` and
would have fired the hourly rule). -/
theorem timeframeOf_fourhour_inv {qU : String} (h : timeframeOf qU = TF.fourhour) :
    strHas qU "4H" = true ∧ strHas qU "HOUR" = false
      ∧ strHas qU "HOURLY" = false ∧ strHas qU "1H" = false := by
  by_cases h1 : ["HOUR", "HOURLY", "1H", "1 HOUR"].any (fun kw => strHas qU kw) = true
  · rw [timeframeOf, if_pos h1] at h
    exact absurd h (by simp)
  · have hnone := h1
    simp only [List.any_cons, List.any_nil, Bool.or_eq_true, not_or,
      Bool.not_eq_true] at hnone
    obtain ⟨hHOUR, hHOURLY, h1H, -⟩ := hnone
    by_cases h2 : ["4 HOUR", "4H", "4-HOUR"].any (fun kw => strHas qU kw) = true
    · refine ⟨?_, hHOUR, hHOURLY, h1H⟩
      simp only [List.any_cons, List.any_nil, Bool.or_eq_true] at h2
      rcases h2 with h4sp | h4h | h4dash | hfalse
      · exact absurd (strHas_trans h4sp (show strHas "4 HOUR" "HOUR" = true by decide))
          (by simp [hHOUR])
      · exact h4h
      · exact absurd (strHas_trans h4dash (show strHas "4-HOUR" "HOUR" = true by decide))
          (by simp [hHOUR])
      · exact absurd hfalse (by simp)
    · rw [timeframeOf, if_neg (by simpa using h1), if_neg (by simpa using h2)] at h
      split_ifs at h

/-! ### Helper lemmas about the retry loop -/

theorem retryGo_attempts_le {α ε : Type} (oracle : ℕ → AttemptOutcome α ε) :
    ∀ fuel i, (retryGo oracle fuel i).2.2 ≤ fuel := by
  intro fuel
  induction fuel with
  | zero => intro i; simp [retryGo]
  | succ n ih =>
    intro i
    rcases ho : oracle i with v | _ | e
    · simp [retryGo, ho]
    · by_cases hn : n = 0
      · simp [retryGo, ho, hn]
      · have hrec := ih (i + 1)
        simp only [retryGo, ho, if_neg hn]
        show (retryGo oracle n (i + 1)).2.2 + 1 ≤ n + 1
        omega
    · simp [retryGo, ho]

theorem fetchCrypto_parts {ε : Type}
    (oracle : ℕ → AttemptOutcome (List (Option RawMarket)) ε) (symbol : String) :
    (fetchCryptoMarkets oracle symbol).2 = (fetchMarketsWithRetry oracle).2 := by
  rcases hr : fetchMarketsWithRetry oracle with ⟨res, sl, n⟩
  cases res <;> simp [fetchCryptoMarkets, hr]

/-! ### Helper lemmas about `analyze` on non-empty input -/

theorem isEmpty_false_of_ne_nil {ms : List RawMarket} (h : ms ≠ []) :
    ms.isEmpty = false := by
  cases ms with
  | nil => exact absurd rfl h
  | cons a t => rfl

theorem analyze_direction {ms : List RawMarket} {sym : String}
    (h : ms.isEmpty = false) : (analyze ms sym).direction = (dirConf ms).1 := by
  simp [analyze, h]

theorem analyze_strength {ms : List RawMarket} {sym : String}
    (h : ms.isEmpty = false) :
    (analyze ms sym).signal_strength = strengthOf (diffOf ms) (dirConf ms).2 := by
  simp [analyze, h]

/-! ### Concrete inputs used by the witnesses and counterexamples -/

/-- The spec's §8 categorization scenario question, as a catalog entry. -/
def mkt24 : RawMarket :=
  { question := some "ETH price 24 hour high", active := some true,
    closed := some false, outcomePrices := none, volume := none, endDate := none }

/-- The spec's §8 tie-break example: both bullish and bearish keywords. -/
def mktBoth : RawMarket :=
  { question := some "Will ETH be above $3000 and not fall below $2500?",
    active := some true, closed := some false, outcomePrices := some "0.8,0.2",
    volume := none, endDate := none }

/-- The spec's §8 aggregation scenario market. -/
def mktAbove : RawMarket :=
  { question := some "Will ETH be above $4000 by Friday?", active := some true,
    closed := some false, outcomePrices := some "0.8,0.2",
    volume := none, endDate := none }

/-- A market whose question matches `4H` but no hourly keyword. -/
def mkt4h : RawMarket :=
  { question := some "ETH PRICE 4H CLOSE", active := some true,
    closed := some false, outcomePrices := none, volume := none, endDate := none }

/-- A market whose first price parses but whose second does not. -/
def mktBad : RawMarket :=
  { question := some "Will ETH reach $5000?", active := some true,
    closed := some false, outcomePrices := some "0.7,abc",
    volume := none, endDate := none }

/-- The `market_info` the aggregation derives for `mktBad`. -/
def infoBad : MarketInfo :=
  { question := "Will ETH reach $5000?", yes_probability := 1 / 2,
    no_probability := 1 / 2, volume := "0", end_date := "" }

/-! ### Concrete evaluations (rational arithmetic does not reduce in the
kernel, so the discrete scan is settled by `decide` and the numeric value
by `norm_num`) -/

theorem parseFloat_eval {s : String} {r : Bool × List Char × List Char × ℤ}
    (h : parseFloatRaw s = some r) :
    parseFloat s = some (ratOfParts r.1 r.2.1 r.2.2.1 r.2.2.2) := by
  rw [parseFloat, h]; rfl

theorem parseFloat_of_raw_none {s : String} (h : parseFloatRaw s = none) :
    parseFloat s = none := by
  rw [parseFloat, h]; rfl

theorem parseFloat_07 : parseFloat "0.7" = some (7 / 10) := by
  rw [parseFloat_eval (show parseFloatRaw "0.7" = some (false, ['0'], ['7'], 0)
    from by decide)]
  norm_num [ratOfParts, pow10, show digitsToNat ['0'] = 0 from by decide,
    show digitsToNat ['7'] = 7 from by decide]

theorem parseFloat_08 : parseFloat "0.8" = some (4 / 5) := by
  rw [parseFloat_eval (show parseFloatRaw "0.8" = some (false, ['0'], ['8'], 0)
    from by decide)]
  norm_num [ratOfParts, pow10, show digitsToNat ['0'] = 0 from by decide,
    show digitsToNat ['8'] = 8 from by decide]

theorem parseFloat_02 : parseFloat "0.2" = some (1 / 5) := by
  rw [parseFloat_eval (show parseFloatRaw "0.2" = some (false, ['0'], ['2'], 0)
    from by decide)]
  norm_num [ratOfParts, pow10, show digitsToNat ['0'] = 0 from by decide,
    show digitsToNat ['2'] = 2 from by decide]

theorem parseFloat_abc : parseFloat "abc" = none :=
  parseFloat_of_raw_none (by decide)

theorem yesPrice_0802 : yesPrice (some "0.8,0.2") = 4 / 5 := by
  have hsplit : splitComma "0.8,0.2" = ["0.8", "0.2"] := by decide
  have hall : parseAll ["0.8", "0.2"] = some [4 / 5, 1 / 5] := by
    simp [parseAll, parseFloat_08, parseFloat_02]
  simp +decide [yesPrice, hsplit, hall]

theorem yesPrice_07abc : yesPrice (some "0.7,abc") = 1 / 2 := by
  have hsplit : splitComma "0.7,abc" = ["0.7", "abc"] := by decide
  have hall : parseAll ["0.7", "abc"] = none := by
    simp [parseAll, parseFloat_07, parseFloat_abc]
  simp +decide [yesPrice, hsplit, hall]

theorem signals_mktAbove :
    signals [mktAbove] = ([4 / 5], [1 / 5], [marketInfoOf mktAbove]) := by
  have hy : yesPrice mktAbove.outcomePrices = 4 / 5 := yesPrice_0802
  simp +decide [signals, hy]
  norm_num

theorem avgBullish_mktAbove : avgBullish [mktAbove] = 4 / 5 := by
  simp [avgBullish, signals_mktAbove]

theorem avgBearish_mktAbove : avgBearish [mktAbove] = 1 / 5 := by
  simp [avgBearish, signals_mktAbove]

/-! ### Claim theorems -/

/-- Claim C1, counterexample to the claim as stated: there is NO non-empty
input with both bullish-phrased and bearish-phrased markets whose
unrounded averages fail to sum to 1.  Every classified market pushes `y`
onto one accumulator and `1 - y` onto the other, so the accumulators are
not independent and the exact averages always sum to 1. -/
theorem mixed_averages_sum_not_one_impossible :
    ¬ ∃ ms : List RawMarket, ms ≠ []
      ∧ (∃ m ∈ ms, isBullishQ (pyUpper (m.question.getD "")) = true)
      ∧ (∃ m ∈ ms, isBearishQ (pyUpper (m.question.getD "")) = true)
      ∧ avgBullish ms + avgBearish ms ≠ 1 := by
  rintro ⟨ms, -, -, -, hne⟩
  exact hne (avg_sum_one ms)

/-- Claim C1 (amended): for every input list to `analyze_markets`, the two
unrounded averages are forced to be exactly complementary: they always
sum to 1. -/
theorem bullish_bearish_averages_complementary (ms : List RawMarket) :
    avgBullish ms + avgBearish ms = 1 :=
  avg_sum_one ms

/-- Claim C2, counterexample: the market with question
"ETH price 24 hour high" passes the relevance filter for ETH but is NOT
placed in the `daily` bucket: its question contains `HOUR`, so the hourly
rule (checked first) fires. -/
theorem eth_24_hour_high_not_daily :
    relevantMarket (pyUpper "ETH") mkt24 = true
      ∧ (categorizeMarkets "ETH" [some mkt24]).daily = []
      ∧ timeframeOf (pyUpper "ETH price 24 hour high") ≠ TF.daily := by
  decide

/-- Claim C2 (amended): the market with question "ETH price 24 hour high"
is placed in the `hourly` bucket, because the first rule's `HOUR` keyword
matches before the daily rule is ever consulted. -/
theorem eth_24_hour_high_goes_hourly :
    (categorizeMarkets "ETH" [some mkt24]).hourly = [mkt24]
      ∧ timeframeOf (pyUpper "ETH price 24 hour high") = TF.hourly := by
  decide

/-- Claim C3, counterexample: with `outcomePrices = "0.7,abc"` the first
element is present and parseable (`float("0.7")` succeeds), yet
`yes_probability` is the 0.5 default, not 0.7: the list comprehension
parses every element and the second one raises. -/
theorem first_price_parseable_but_defaulted :
    parseFloat "0.7" = some (7 / 10)
      ∧ yesPrice (some "0.7,abc") = 1 / 2
      ∧ (7 / 10 : ℚ) ≠ (1 / 2 : ℚ)
      ∧ (signals [mktBad]).2.2 = [infoBad] := by
  have hy : yesPrice (some "0.7,abc") = 1 / 2 := yesPrice_07abc
  refine ⟨parseFloat_07, hy, by norm_num, ?_⟩
  simp +decide [signals, marketInfoOf, infoBad, mktBad, hy]
  norm_num

/-- Claim C3 (amended): `yes_probability` equals the first comma-separated
element only when the `outcomePrices` field is a non-empty string and
EVERY comma-separated element parses; a missing or non-string field, an
empty string, or any element failing to parse all yield the 0.5 default,
and no parse failure is ever propagated (the embedding of the parse is a
total function). -/
theorem yes_probability_characterization (s : String) :
    yesPrice none = 1 / 2
      ∧ (s.data.isEmpty = true → yesPrice (some s) = 1 / 2)
      ∧ (∀ ps : List ℚ, s.data.isEmpty = false →
          parseAll (splitComma s) = some ps →
          yesPrice (some s) = ps.headD (1 / 2))
      ∧ (parseAll (splitComma s) = none → yesPrice (some s) = 1 / 2) := by
  refine ⟨rfl, ?_, ?_, ?_⟩
  · intro h
    simp [yesPrice, h]
  · intro ps hne hsome
    simp [yesPrice, hne, hsome]
  · intro hnone
    by_cases h : s.data.isEmpty
    · simp [yesPrice, h]
    · simp [yesPrice, h, hnone]

/-- Concrete check of the C3 amendment on "0.8,0.2". -/
theorem yes_probability_characterization_witness :
    yesPrice (some "0.8,0.2") = (4 / 5 : ℚ) := by
  have h := (yes_probability_characterization "0.8,0.2").2.2.1 [4 / 5, 1 / 5]
    (by decide)
    (by rw [show splitComma "0.8,0.2" = ["0.8", "0.2"] from by decide]
        simp [parseAll, parseFloat_08, parseFloat_02])
  simpa using h

/-- Claim C9: the empty input gives exactly the fixed neutral
recommendation, with the templated summary; it is not an error. -/
theorem analyze_empty_neutral (sym : String) :
    analyze [] sym =
      { direction := Direction.neutral
        confidence := 0
        signal_strength := SignalStrength.none
        markets_analyzed := 0
        bullish_probability := 1 / 2
        bearish_probability := 1 / 2
        summary := "未找到 " ++ sym ++ " 的活跃预测市场"
        markets := [] } := rfl

/-- Claim C4: a market whose question matches a bullish keyword is
classified bullish even when it also matches a bearish keyword, because
the bullish test runs first: its `yes_probability` is pushed onto the
bullish accumulator and its complement onto the bearish one. -/
theorem both_keywords_classified_bullish (m : RawMarket) (rest : List RawMarket)
    (hb : isBullishQ (pyUpper (m.question.getD "")) = true)
    (_hr : isBearishQ (pyUpper (m.question.getD "")) = true) :
    signals (m :: rest) =
      (yesPrice m.outcomePrices :: (signals rest).1,
       (1 - yesPrice m.outcomePrices) :: (signals rest).2.1,
       marketInfoOf m :: (signals rest).2.2) := by
  simp [signals, hb]

/-- Concrete check of C4 on the spec's tie-break example question. -/
theorem both_keywords_classified_bullish_witness :
    isBullishQ (pyUpper (mktBoth.question.getD "")) = true
      ∧ isBearishQ (pyUpper (mktBoth.question.getD "")) = true
      ∧ signals [mktBoth] = ([(4 : ℚ) / 5], [(1 : ℚ) / 5], [marketInfoOf mktBoth]) := by
  refine ⟨by decide, by decide, ?_⟩
  rw [both_keywords_classified_bullish mktBoth [] (by decide) (by decide)]
  have hy : yesPrice mktBoth.outcomePrices = 4 / 5 := yesPrice_0802
  simp [signals, hy]
  norm_num

/-- Claim C5: on non-empty input, the direction and unrounded confidence
follow the sign of `avg_bullish - avg_bearish`, with neutral/0.5 on exact
equality. -/
theorem direction_confidence_rule (ms : List RawMarket) (sym : String) (h : ms ≠ []) :
    (avgBullish ms > avgBearish ms →
        (analyze ms sym).direction = Direction.buy ∧ (dirConf ms).2 = avgBullish ms)
      ∧ (avgBearish ms > avgBullish ms →
        (analyze ms sym).direction = Direction.sell ∧ (dirConf ms).2 = avgBearish ms)
      ∧ (avgBullish ms = avgBearish ms →
        (analyze ms sym).direction = Direction.neutral ∧ (dirConf ms).2 = 1 / 2) := by
  have hd := @analyze_direction ms sym (isEmpty_false_of_ne_nil h)
  refine ⟨?_, ?_, ?_⟩ <;> intro hcmp
  · rw [hd]
    unfold dirConf
    rw [if_pos hcmp]
    exact ⟨rfl, rfl⟩
  · have h1 : ¬ avgBullish ms > avgBearish ms := not_lt.mpr (le_of_lt hcmp)
    rw [hd]
    unfold dirConf
    rw [if_neg h1, if_pos hcmp]
    exact ⟨rfl, rfl⟩
  · have h1 : ¬ avgBullish ms > avgBearish ms := by rw [hcmp]; exact lt_irrefl _
    have h2 : ¬ avgBearish ms > avgBullish ms := by rw [hcmp]; exact lt_irrefl _
    rw [hd]
    unfold dirConf
    rw [if_neg h1, if_neg h2]
    exact ⟨rfl, rfl⟩

/-- Concrete check of C5 on the spec's §8 aggregation scenario. -/
theorem direction_confidence_rule_witness :
    (analyze [mktAbove] "ETH").direction = Direction.buy
      ∧ (dirConf [mktAbove]).2 = avgBullish [mktAbove] :=
  (direction_confidence_rule [mktAbove] "ETH" (by decide)).1
    (by rw [avgBullish_mktAbove, avgBearish_mktAbove]; norm_num)

/-- Claim C6: on non-empty input, the strength is `strong` iff
`diff > 0.3` and `confidence > 0.7` (strict), else `moderate` iff
`diff > 0.15` and `confidence > 0.6`, else `weak`; at the exact boundary
`diff = 0.3, confidence = 0.7` the rule gives `moderate`; and the
non-empty case never yields `none`. -/
theorem signal_strength_rule (ms : List RawMarket) (sym : String) (h : ms ≠ []) :
    (analyze ms sym).signal_strength = strengthOf (diffOf ms) (dirConf ms).2
      ∧ (∀ d c : ℚ,
          (strengthOf d c = SignalStrength.strong ↔ d > 0.3 ∧ c > 0.7)
          ∧ (strengthOf d c = SignalStrength.moderate ↔
              ¬(d > 0.3 ∧ c > 0.7) ∧ (d > 0.15 ∧ c > 0.6))
          ∧ (strengthOf d c = SignalStrength.weak ↔
              ¬(d > 0.3 ∧ c > 0.7) ∧ ¬(d > 0.15 ∧ c > 0.6)))
      ∧ strengthOf 0.3 0.7 = SignalStrength.moderate
      ∧ (analyze ms sym).signal_strength ≠ SignalStrength.none := by
  have hs := @analyze_strength ms sym (isEmpty_false_of_ne_nil h)
  refine ⟨hs, ?_, by norm_num [strengthOf], ?_⟩
  · intro d c
    unfold strengthOf
    split_ifs with h1 h2 <;> simp_all
  · rw [hs]
    unfold strengthOf
    split_ifs <;> simp

/-- Concrete check of C6: boundary value and a non-`none` instance. -/
theorem signal_strength_rule_witness :
    strengthOf 0.3 0.7 = SignalStrength.moderate
      ∧ (analyze [mktAbove] "ETH").signal_strength ≠ SignalStrength.none := by
  have h := signal_strength_rule [mktAbove] "ETH" (by decide)
  exact ⟨h.2.2.1, h.2.2.2⟩

theorem pickTF_eq_some {symU : String} {tf : TF} {e : Option RawMarket} {m : RawMarket}
    (h : pickTF symU tf e = some m) :
    e = some m ∧ relevantMarket symU m = true
      ∧ timeframeOf (pyUpper (m.question.getD "")) = tf := by
  cases e with
  | none => exact absurd h (by simp [pickTF])
  | some m2 =>
    by_cases hc : relevantMarket symU m2 = true
        ∧ timeframeOf (pyUpper (m2.question.getD "")) = tf
    · have h2 : some m2 = some m := by simpa [pickTF, hc] using h
      obtain rfl : m2 = m := by injection h2
      exact ⟨rfl, hc.1, hc.2⟩
    · exact absurd h (by simp [pickTF, hc])

/-- Claim C7: the categorizer's output always has all five buckets (they
are the fields of `CategorizedMarkets`); each bucket is the source-order
selection of the relevant entries with that timeframe; a market appears
in some bucket iff it passes the relevance filter; and no market value
appears in two different buckets. -/
theorem categorize_partition_invariant (sym : String) (ms : List (Option RawMarket)) :
    (∀ tf, bucketGet (categorizeMarkets sym ms) tf = ms.filterMap (pickTF (pyUpper sym) tf))
      ∧ (∀ m : RawMarket, some m ∈ ms →
          ((∃ tf, m ∈ bucketGet (categorizeMarkets sym ms) tf)
            ↔ relevantMarket (pyUpper sym) m = true))
      ∧ (∀ (m : RawMarket) (tf1 tf2 : TF),
          m ∈ bucketGet (categorizeMarkets sym ms) tf1 →
          m ∈ bucketGet (categorizeMarkets sym ms) tf2 → tf1 = tf2) := by
  refine ⟨categorize_bucket_eq sym ms, ?_, ?_⟩
  · intro m hm
    constructor
    · rintro ⟨tf, htf⟩
      rw [categorize_bucket_eq] at htf
      rcases List.mem_filterMap.mp htf with ⟨e, -, hpick⟩
      exact (pickTF_eq_some hpick).2.1
    · intro hrel
      refine ⟨timeframeOf (pyUpper (m.question.getD "")), ?_⟩
      rw [categorize_bucket_eq]
      exact List.mem_filterMap.mpr ⟨some m, hm, by simp [pickTF, hrel]⟩
  · intro m tf1 tf2 h1 h2
    rw [categorize_bucket_eq] at h1 h2
    rcases List.mem_filterMap.mp h1 with ⟨e1, -, hp1⟩
    rcases List.mem_filterMap.mp h2 with ⟨e2, -, hp2⟩
    rw [← (pickTF_eq_some hp1).2.2, ← (pickTF_eq_some hp2).2.2]

/-- Concrete check of C7: a relevant market lands in some bucket. -/
theorem categorize_partition_invariant_witness :
    ∃ tf, mktAbove ∈ bucketGet (categorizeMarkets "ETH" [some mktAbove]) tf :=
  ((categorize_partition_invariant "ETH" [some mktAbove]).2.1 mktAbove
    (by simp)).mpr (by decide)

/-- Claim C8: the fetch makes at most 3 attempts; a non-timeout failure on
the first attempt propagates immediately with no retry and no sleep;
three timeouts exhaust the retries with two 2-second sleeps and propagate
the timeout; a timeout followed by a success retries once after one
2-second sleep. -/
theorem fetch_retry_behavior {ε : Type}
    (oracle : ℕ → AttemptOutcome (List (Option RawMarket)) ε) (symbol : String) :
    ((fetchCryptoMarkets oracle symbol).2.2 ≤ 3)
      ∧ (∀ e, oracle 0 = AttemptOutcome.otherError e →
          fetchCryptoMarkets oracle symbol = (FetchResult.raised e, [], 1))
      ∧ (oracle 0 = AttemptOutcome.timeoutError →
          oracle 1 = AttemptOutcome.timeoutError →
          oracle 2 = AttemptOutcome.timeoutError →
          fetchCryptoMarkets oracle symbol = (FetchResult.timeoutRaised, [2, 2], 3))
      ∧ (∀ v, oracle 0 = AttemptOutcome.timeoutError →
          oracle 1 = AttemptOutcome.ok v →
          fetchCryptoMarkets oracle symbol
            = (FetchResult.ok (categorizeMarkets symbol v), [2], 2)) := by
  refine ⟨?_, ?_, ?_, ?_⟩
  · rw [fetchCrypto_parts]
    exact retryGo_attempts_le oracle 3 0
  · intro e h0
    simp [fetchCryptoMarkets, fetchMarketsWithRetry, retryGo, h0]
  · intro h0 h1 h2
    simp [fetchCryptoMarkets, fetchMarketsWithRetry, retryGo, h0, h1, h2]
  · intro v h0 h1
    simp [fetchCryptoMarkets, fetchMarketsWithRetry, retryGo, h0, h1]

/-- Concrete check of C8: three straight timeouts. -/
theorem fetch_retry_behavior_witness :
    fetchCryptoMarkets (fun _ => (AttemptOutcome.timeoutError :
        AttemptOutcome (List (Option RawMarket)) Unit)) "ETH"
      = (FetchResult.timeoutRaised, [2, 2], 3) :=
  (fetch_retry_behavior (fun _ => AttemptOutcome.timeoutError) "ETH").2.2.1 rfl rfl rfl

/-- Claim C10: a relevant market whose question contains `4 HOUR` or
`4-HOUR` is placed in the `hourly` bucket (both phrases contain `HOUR`,
matched by the first rule), so the `4hour` bucket can only hold markets
whose question contains `4H` but none of `HOUR`, `HOURLY`, `1H`. -/
theorem four_hour_bucket_contents (sym : String) (ms : List (Option RawMarket)) :
    (∀ m : RawMarket, some m ∈ ms → relevantMarket (pyUpper sym) m = true →
        (strHas (pyUpper (m.question.getD "")) "4 HOUR" = true
          ∨ strHas (pyUpper (m.question.getD "")) "4-HOUR" = true) →
        m ∈ bucketGet (categorizeMarkets sym ms) TF.hourly)
      ∧ (∀ m : RawMarket, m ∈ bucketGet (categorizeMarkets sym ms) TF.fourhour →
        strHas (pyUpper (m.question.getD "")) "4H" = true
          ∧ strHas (pyUpper (m.question.getD "")) "HOUR" = false
          ∧ strHas (pyUpper (m.question.getD "")) "HOURLY" = false
          ∧ strHas (pyUpper (m.question.getD "")) "1H" = false) := by
  constructor
  · intro m hm hrel h4
    have hhour : strHas (pyUpper (m.question.getD "")) "HOUR" = true := by
      rcases h4 with h4 | h4
      · exact strHas_trans h4 (show strHas "4 HOUR" "HOUR" = true by decide)
      · exact strHas_trans h4 (show strHas "4-HOUR" "HOUR" = true by decide)
    rw [categorize_bucket_eq]
    exact List.mem_filterMap.mpr
      ⟨some m, hm, by simp [pickTF, hrel, timeframeOf_hour hhour]⟩
  · intro m hmem
    rw [categorize_bucket_eq] at hmem
    rcases List.mem_filterMap.mp hmem with ⟨e, -, hpick⟩
    exact timeframeOf_fourhour_inv (pickTF_eq_some hpick).2.2

/-- Concrete check of C10 on a market that lands in the `4hour` bucket. -/
theorem four_hour_bucket_contents_witness :
    strHas (pyUpper (mkt4h.question.getD "")) "4H" = true
      ∧ strHas (pyUpper (mkt4h.question.getD "")) "HOUR" = false
      ∧ strHas (pyUpper (mkt4h.question.getD "")) "HOURLY" = false
      ∧ strHas (pyUpper (mkt4h.question.getD "")) "1H" = false :=
  (four_hour_bucket_contents "ETH" [some mkt4h]).2 mkt4h (by decide)

end Polymarket
